/-
Verification of the ingestion pipeline of k-tree (src/example/k_tree_example.cpp)
against its natural-language specification.

The embedding is shallow: the buffer handed to the line splitter is a
`List Char` holding the bytes that precede the terminating NUL of the
C++ string, line references are modelled by the character run the pushed
pointer later reads, the file system is a small record describing what
fopen/fstat/fread report, and floating point values are kept as exact
rationals (every value the claims mention is exactly representable, and
atof itself is a textual, base-10 conversion).
-/
import Mathlib

set_option maxHeartbeats 1000000
namespace KTree

/-- NUL, the C string terminator. The logical buffer content is the byte
sequence before it; a file can also contain embedded NUL bytes, at which
every scanning loop of the source stops. -/
def nul : Char := '\x00'

/-- Line terminator test of buffer_to_list (k_tree_example.cpp:77): LF or CR. -/
def isTerm (c : Char) : Bool := c = '\n' || c = '\r'

/-- Model of the C isspace classifier on ASCII input (space, tab, LF,
vertical tab, form feed, CR). -/
def isSpaceC (c : Char) : Bool :=
  c = ' ' || c = '\t' || c = '\n' || c = '\x0b' || c = '\x0c' || c = '\r'

/-- A buffer with no embedded NUL byte. The spec hands the splitter a buffer
*terminated* by a zero byte, so the logical content satisfies this. -/
def noNul (l : List Char) : Prop := ∀ c ∈ l, c ≠ nul

instance (l : List Char) : Decidable (noNul l) :=
  inferInstanceAs (Decidable (∀ c ∈ l, c ≠ nul))

/-- Content a recorded position later reads back as a C string: characters up
to the next delimiter or NUL. Pass 2 of buffer_to_list overwrites the first
byte of every terminator run with NUL (k_tree_example.cpp:106), so a pushed
line pointer reads exactly up to the next terminator or pre-existing NUL. -/
def takeLine (d : Char → Bool) (l : List Char) : List Char :=
  l.takeWhile (fun c => !(d c) && !(c = nul))

/-- Generic form of the scanning loops of the source (pass 2 of
buffer_to_list, k_tree_example.cpp:99-117, and the token walks of build):
advance over the characters, stopping at NUL; characters with `d c = true`
are delimiters; each maximal run of non-delimiter characters is recorded.
`fresh` is true at the start of the walk and just after a delimiter run,
which is exactly when the source records the current position. -/
def runsGo (d : Char → Bool) (fresh : Bool) : List Char → List (List Char)
  | [] => []
  | c :: rest =>
    if c = nul then []
    else if d c then runsGo d true rest
    else if fresh then (c :: takeLine d rest) :: runsGo d false rest
    else runsGo d false rest

/-- Generic form of the counting loops of the source (pass 1 of
buffer_to_list, k_tree_example.cpp:74-88, and the dimension sniff of build,
k_tree_example.cpp:153-165): count the maximal runs of characters with
`d c = true`, stopping at NUL. `inRun` is true while inside such a run; the
source increments its counter once per run. -/
def cntGo (d : Char → Bool) (inRun : Bool) : List Char → Nat
  | [] => 0
  | c :: rest =>
    if c = nul then 0
    else if d c then (if inRun then 0 else 1) + cntGo d true rest
    else cntGo d false rest

/-- Pass 2 of buffer_to_list (k_tree_example.cpp:99-117): record the buffer
start when it is not a terminator and not NUL, then after every terminator
run record the following position unless it is the end; each recorded
position denotes the line the pointer later reads. Starting `runsGo` with
`fresh = true` is that initial conditional push. -/
def buffer_to_list (buffer : List Char) : List (List Char) :=
  runsGo isTerm true buffer

/-- Pass 1 of buffer_to_list (k_tree_example.cpp:74-88): count maximal
terminator runs. The walk starts outside any run. -/
def countLines (buffer : List Char) : Nat :=
  cntGo isTerm false buffer

/-- Dimensionality sniff of build (k_tree_example.cpp:153-165): count the
maximal runs of non-whitespace characters of the first line, i.e. its
whitespace-delimited tokens, stopping at the terminating NUL. -/
def sniff (line : List Char) : Nat :=
  cntGo (fun c => !(isSpaceC c)) false line

/-- Value of a decimal digit character. -/
def digVal (c : Char) : Nat := c.toNat - '0'.toNat

/-- Exact decimal value num / 10 ^ scale. The conversion the C library atof
performs is textual and base 10, so the value it would hand to the float
cast is represented exactly by such a pair; arithmetic on the pair stays in
Int and Nat so that concrete runs evaluate inside the kernel. -/
structure Dec where
  num : Int
  scale : Nat
  deriving DecidableEq

/-- Rational value of a Dec pair. -/
def Dec.toQ (v : Dec) : ℚ := (v.num : ℚ) / (10 : ℚ) ^ v.scale

/-- Model of the C library atof (strtod on base-10 input): skip whitespace,
optional sign, integer digits, optional point and fraction digits, optional
exponent; the longest numeric head of the string is converted and the rest
ignored; an absent part contributes nothing. Hexadecimal, infinity and NaN
forms are not modelled; no input of this development contains them. -/
def atofDec (s : List Char) : Dec :=
  let s1 := s.dropWhile isSpaceC
  let sgn : Int := if s1.head? = some '-' then -1 else 1
  let s2 := if s1.head? = some '-' || s1.head? = some '+' then s1.tail else s1
  let ipart := s2.takeWhile Char.isDigit
  let s3 := s2.dropWhile Char.isDigit
  let fpart := if s3.head? = some '.' then s3.tail.takeWhile Char.isDigit else []
  let s4 := if s3.head? = some '.' then s3.tail.dropWhile Char.isDigit else s3
  let ival : Nat := ipart.foldl (fun a c => 10 * a + digVal c) 0
  let fval : Nat := fpart.foldl (fun a c => 10 * a + digVal c) 0
  let mnum : Int := sgn * ((ival * 10 ^ fpart.length + fval : Nat) : Int)
  let s5 := if s4.head? = some 'e' || s4.head? = some 'E' then s4.tail else []
  let s6 := if s5.head? = some '-' || s5.head? = some '+' then s5.tail else s5
  let emag : Nat := (s6.takeWhile Char.isDigit).foldl (fun a c => 10 * a + digVal c) 0
  if s5.head? = some '-' then ⟨mnum, fpart.length + emag⟩
  else ⟨mnum * ((10 ^ emag : Nat) : Int), fpart.length⟩

/-- Vector parsing loop of build (k_tree_example.cpp:182-194): the same walk
as the sniff, but at the start of every token the value atof reads from that
position is collected, in order. The source passes the position inside the
line to atof, so the argument here is the whole remaining suffix; atof stops
at the whitespace that ends the token. -/
def parseGo (fresh : Bool) : List Char → List Dec
  | [] => []
  | c :: rest =>
    if c = nul then []
    else if isSpaceC c then parseGo true rest
    else if fresh then atofDec (c :: rest) :: parseGo false rest
    else parseGo false rest

/-- Values the vector parsing loop of build produces for one line, left to
right, as rationals. -/
def parseLine (line : List Char) : List ℚ := (parseGo true line).map Dec.toQ

/-- Index and value of every store the loop performs: the k-th parsed value
is written to vector slot index k (k_tree_example.cpp:191-192), with no
bound check against the dimensionality of the slot. -/
def parserWrites (line : List Char) : List (Nat × ℚ) := (parseLine line).enum

/-- The vector slot after the parsing loop of build ran over one line.
List.set drops a store aimed past the end of the slot, so this model is
faithful only while every write index is inside the slot; the source
performs an unchecked raw store there (see the over-long line claim). -/
def fillSlot (slot : List ℚ) (line : List Char) : List ℚ :=
  (parserWrites line).foldl (fun v iw => v.set iw.1 iw.2) slot

/-- Spec-side definition (spec.md section 8, written from the words of the
spec, to be compared with the source embedding): the Line Splitter yields
one entry per non-blank logical line in file order, where a blank line
consists solely of terminator characters; splitting the buffer at every
terminator and discarding the blank pieces states exactly that. -/
def specLines (buffer : List Char) : List (List Char) :=
  (buffer.splitOnP isTerm).filter (fun x => !(x.isEmpty))

/-- Spec-side definition: the whitespace-delimited tokens of a line
(spec.md section 4.3). -/
def specTokens (line : List Char) : List (List Char) :=
  (line.splitOnP isSpaceC).filter (fun x => !(x.isEmpty))

/-- Spec-side definition: the number of maximal runs of terminator
characters of the buffer, the quantity pass 1 of the splitter computes. -/
def termRunCount (buffer : List Char) : Nat :=
  ((buffer.splitOnP (fun c => !(isTerm c))).filter (fun x => !(x.isEmpty))).length

/-- What the file system reports for one path: whether fopen succeeds,
whether fstat succeeds, the st_size field, whether the single fread of
st_size bytes succeeds, and the bytes a successful read delivers (for a
real file their number equals st_size). -/
structure FileState where
  name : String
  openable : Bool
  statOk : Bool
  size : Nat
  readOk : Bool
  content : List Char
  deriving DecidableEq

/-- read_entire_file (k_tree_example.cpp:25-56): file_length starts at 0 and
becomes st_size as soon as fstat succeeds and st_size is nonzero; the buffer
is resized to st_size and filled, and resized back to empty when the fread
falls short. Note that on the short-read path the returned length keeps
st_size: the function does not reset it. -/
def read_entire_file (fs : FileState) : Nat × List Char :=
  if fs.openable then
    if fs.statOk then
      if fs.size = 0 then (0, [])
      else if fs.readOk then (fs.size, fs.content)
      else (fs.size, [])
    else (0, [])
  else (0, [])

/-- The two diagnostics build can print before terminating
(k_tree_example.cpp:134 and 142); the second names the input file. -/
inductive Diag where
  | badOrder : Diag
  | cannotRead : String → Diag
  deriving DecidableEq

/-- Observable outcome of one build run: the diagnostic printed (if any),
whether the process exit status is nonzero (exit of a positive printf count,
k_tree_example.cpp:134,142, versus the final return 0), whether the output
file was opened and written (k_tree_example.cpp:208-210), and the vectors
inserted into the tree in file order. The tree internals live outside this
repository; what the pipeline hands it, in order, is the contract. -/
structure BuildResult where
  diag : Option Diag
  exitNonzero : Bool
  outputWritten : Bool
  inserted : Option (List (List ℚ))
  deriving DecidableEq

/-- Outcome of the early exit on a tree order outside [2, 1000000]. -/
def orderRejection : BuildResult := ⟨some Diag.badOrder, true, false, none⟩

/-- Outcome of the early exit when read_entire_file reports zero bytes. -/
def fileRejection (name : String) : BuildResult :=
  ⟨some (Diag.cannotRead name), true, false, none⟩

/-- build (k_tree_example.cpp:125-213). The steps in source order: validate
the tree order, read the file, abort when zero bytes are reported, split
into lines, sniff the dimensionality of lines[0], parse every line into a
fresh slot, insert all vectors, write the output file. Two accesses have no
defined value in a total embedding and yield none: reading lines[0] of an
empty line list, and a parsed value stored at an index not below the slot
length (an out-of-bounds raw write in the source). Unwritten slot
components keep the (unspecified) fresh-slot content, modelled as zero. -/
def build (fs : FileState) (tree_order : Nat) : Option BuildResult :=
  if tree_order < 2 ∨ tree_order > 1000000 then some orderRejection
  else
    let r := read_entire_file fs
    if r.1 = 0 then some (fileRejection fs.name)
    else
      let lines := buffer_to_list r.2
      match lines.head? with
      | none => none
      | some firstLine =>
        let dimensions := sniff firstLine
        if lines.all (fun line => (parseLine line).length ≤ dimensions) then
          some ⟨none, false, true,
                some (lines.map (fun line => fillSlot (List.replicate dimensions 0) line))⟩
        else none

/-- Model of the C library atoi: skip whitespace, optional sign, decimal
digits up to the first other character; overflow is not modelled. -/
def atoiModel (s : List Char) : Int :=
  let s1 := s.dropWhile isSpaceC
  let s2 := if s1.head? = some '-' || s1.head? = some '+' then s1.tail else s1
  let n : Nat := (s2.takeWhile Char.isDigit).foldl (fun a c => 10 * a + digVal c) 0
  if s1.head? = some '-' then -(n : Int) else (n : Int)

/-- Conversion of the int atoi returns to the size_t parameter of build:
unsigned 64-bit wraparound. -/
def toSizeT (i : Int) : Nat := (i % (2 ^ 64)).toNat

/-- The three things main can do with its arguments. -/
inductive Action where
  | runBuild : String → Nat → String → Action
  | runUnittest : Action
  | runUsage : Action
  deriving DecidableEq

/-- usage (k_tree_example.cpp:239-243) prints the syntax line and returns
zero, the neutral status main passes through. -/
def usageExit : Int := 0

/-- main (k_tree_example.cpp:249-262): with argc not equal to 5, an argc of
exactly 2 runs the unit tests (whatever the argument is) and anything else
prints usage; with argc equal to 5, argv[1] selects unittest, build, or
usage. argv here includes the program name, so its length is argc. -/
def mainDispatch (argv : List String) : Action :=
  if argv.length ≠ 5 then
    if argv.length = 2 then Action.runUnittest else Action.runUsage
  else if argv.getD 1 "" = "unittest" then Action.runUnittest
  else if argv.getD 1 "" = "build" then
    Action.runBuild (argv.getD 2 "") (toSizeT (atoiModel (argv.getD 3 "").data)) (argv.getD 4 "")
  else Action.runUsage

/-- Pieces of the split after the first delimiter: empty when no delimiter
occurs, otherwise the split of what follows the first delimiter. -/
def splitTail (d : Char → Bool) (l : List Char) : List (List Char) :=
  match l.dropWhile (fun c => !(d c)) with
  | [] => []
  | _ :: r => r.splitOnP d

/-- Input file used to instantiate the boundary statements. -/
def exampleFile : FileState := ⟨"in.vec", true, true, 8, true, "0 0\n1 1\n".data⟩

/-- An input path the File Loader cannot open. -/
def unreadableFile : FileState := ⟨"missing.vec", false, false, 0, false, []⟩

/-- On a NUL-free list, the recorded line content is plain takeWhile over
the non-delimiter test. -/
theorem takeLine_eq_takeWhile (d : Char → Bool) :
    ∀ l : List Char, noNul l → takeLine d l = l.takeWhile (fun c => !(d c)) := by
  intro l h
  induction l with
  | nil => rfl
  | cons c rest ih =>
    have hc : c ≠ nul := h c (List.mem_cons_self c rest)
    have hrest : noNul rest := fun x hx => h x (List.mem_cons_of_mem c hx)
    simp only [takeLine, List.takeWhile_cons] at *
    have hb : (!(c = nul : Bool)) = true := by simpa using hc
    rw [hb]
    cases hd : d c with
    | true => simp
    | false => simpa [hd] using ih hrest

/-- splitOnP laid out as head piece and tail pieces. -/
theorem splitOnP_eq_cons (d : Char → Bool) :
    ∀ l : List Char, l.splitOnP d = l.takeWhile (fun c => !(d c)) :: splitTail d l := by
  intro l
  induction l with
  | nil => rfl
  | cons c rest ih =>
    cases hd : d c with
    | true =>
      simp only [List.splitOnP_cons, hd, if_pos, List.takeWhile_cons, splitTail,
        List.dropWhile_cons, Bool.not_true, if_neg]
      simp
    | false =>
      simp only [List.splitOnP_cons, hd, Bool.false_eq_true, if_false, ih,
        List.modifyHead_cons, splitTail, List.takeWhile_cons, List.dropWhile_cons,
        Bool.not_false, if_true]

/-- Central refinement of the recording walks: on a NUL-free list, the runs
the source loop records are exactly the nonempty pieces of the split at
delimiters (mode true), respectively the nonempty pieces after the first
delimiter (mode false, the state inside an already recorded run). -/
theorem runsGo_eq (d : Char → Bool) :
    ∀ l : List Char, noNul l →
      runsGo d true l = (l.splitOnP d).filter (fun x => !(x.isEmpty))
      ∧ runsGo d false l = (splitTail d l).filter (fun x => !(x.isEmpty)) := by
  intro l
  induction l with
  | nil => intro _; exact ⟨rfl, rfl⟩
  | cons c rest ih =>
    intro h
    have hc : c ≠ nul := h c (List.mem_cons_self c rest)
    have hrest : noNul rest := fun x hx => h x (List.mem_cons_of_mem c hx)
    obtain ⟨ih1, ih2⟩ := ih hrest
    cases hd : d c with
    | true =>
      constructor
      · simp only [runsGo, if_neg hc, hd, if_pos, ih1, List.splitOnP_cons]
        simp
      · simp only [runsGo, if_neg hc, hd, if_pos, ih1, splitTail,
          List.dropWhile_cons, Bool.not_true, Bool.false_eq_true, if_false]
    | false =>
      have htail : splitTail d (c :: rest) = splitTail d rest := by
        simp [splitTail, List.dropWhile_cons, hd]
      constructor
      · simp only [runsGo, if_neg hc, hd, Bool.false_eq_true, if_false, if_pos,
          takeLine_eq_takeWhile d rest hrest, ih2, splitOnP_eq_cons, htail,
          List.takeWhile_cons, Bool.not_false, if_true, List.filter_cons]
        simp
      · simp only [runsGo, if_neg hc, hd, Bool.false_eq_true, if_false, ih2, htail]

/-- The counting walks count exactly the runs the recording walk with the
complementary delimiter test records: the counter of the source is the
number of runs, never their content. -/
theorem cntGo_eq_length (d : Char → Bool) :
    ∀ (l : List Char) (b : Bool),
      cntGo d b l = (runsGo (fun c => !(d c)) (!b) l).length := by
  intro l
  induction l with
  | nil => intro b; rfl
  | cons c rest ih =>
    intro b
    by_cases hc : c = nul
    · simp [cntGo, runsGo, hc]
    · cases hd : d c with
      | true =>
        cases b with
        | true => simp [cntGo, runsGo, hc, hd, ih true]
        | false => simp [cntGo, runsGo, hc, hd, ih true, Nat.add_comm]
      | false =>
        cases b with
        | true => simp [cntGo, runsGo, hc, hd, ih false]
        | false => simp [cntGo, runsGo, hc, hd, ih false]

/-- The recording walk only looks at the delimiter test pointwise. -/
theorem runsGo_congr {d₁ d₂ : Char → Bool} (hd : ∀ c, d₁ c = d₂ c) :
    ∀ (l : List Char) (b : Bool), runsGo d₁ b l = runsGo d₂ b l := by
  have ht : ∀ l : List Char, takeLine d₁ l = takeLine d₂ l := by
    intro l
    simp only [takeLine]
    congr 1
    funext c
    rw [hd c]
  intro l
  induction l with
  | nil => intro b; rfl
  | cons c rest ih =>
    intro b
    simp only [runsGo, hd c, ht rest, ih true, ih false]

/-- Pass 2 against the spec: on a NUL-free buffer the splitter records
exactly the non-blank logical lines, in file order. -/
theorem buffer_to_list_eq_specLines (buf : List Char) (h : noNul buf) :
    buffer_to_list buf = specLines buf :=
  (runsGo_eq isTerm buf h).1

/-- Pass 1 against the spec: the counter of the first pass is the number of
maximal terminator runs of the buffer. -/
theorem countLines_eq_termRunCount (buf : List Char) (h : noNul buf) :
    countLines buf = termRunCount buf := by
  show cntGo isTerm false buf = _
  rw [cntGo_eq_length isTerm buf false]
  show (runsGo (fun c => !(isTerm c)) true buf).length = _
  rw [(runsGo_eq (fun c => !(isTerm c)) buf h).1]
  rfl

/-- The sniff against the spec: the counter is the number of
whitespace-delimited tokens of the line. -/
theorem sniff_eq_specTokens (line : List Char) (h : noNul line) :
    sniff line = (specTokens line).length := by
  show cntGo (fun c => !(isSpaceC c)) false line = _
  rw [cntGo_eq_length]
  show (runsGo (fun c => !(!(isSpaceC c))) true line).length = _
  rw [@runsGo_congr (fun c => !(!(isSpaceC c))) isSpaceC (fun c => by simp) line true]
  rw [(runsGo_eq isSpaceC line h).1]
  rfl

/-- A buffer of delimiters only records nothing (the delimiter test must
reject NUL, as the terminator and whitespace tests do). -/
theorem runsGo_of_all_delim (d : Char → Bool) (hnul : d nul = false) :
    ∀ (l : List Char) (b : Bool), (∀ c ∈ l, d c = true) → runsGo d b l = [] := by
  intro l
  induction l with
  | nil => intro b _; rfl
  | cons c rest ih =>
    intro b h
    have hc : d c = true := h c (List.mem_cons_self c rest)
    have hcn : ¬(c = nul) := fun he => by rw [he, hnul] at hc; exact Bool.false_ne_true hc
    simp only [runsGo, if_neg hcn, hc, if_pos]
    exact ih true (fun x hx => h x (List.mem_cons_of_mem c hx))

/-- Early exit of build on a tree order outside [2, 1000000]
(k_tree_example.cpp:133-134), taken before the file is consulted. -/
theorem build_badOrder (fs : FileState) (t : Nat) (h : t < 2 ∨ t > 1000000) :
    build fs t = some orderRejection := by
  unfold build
  rw [if_pos h]

/-- With a valid tree order, build never produces the order rejection. -/
theorem build_order_accepted (fs : FileState) (t : Nat) (h2 : 2 ≤ t)
    (hm : t ≤ 1000000) : build fs t ≠ some orderRejection := by
  intro h
  unfold build at h
  rw [if_neg (by omega)] at h
  dsimp only at h
  split at h
  · exact absurd (Option.some.inj h) (by simp [fileRejection, orderRejection])
  · split at h
    · exact Option.noConfusion h
    · split at h
      · exact absurd (Option.some.inj h) (by simp [orderRejection])
      · exact Option.noConfusion h

/-- The four shapes a build run can take: order rejection, file rejection,
no value (an undefined access), or full completion. -/
theorem build_cases (fs : FileState) (t : Nat) :
    build fs t = some orderRejection
    ∨ build fs t = some (fileRejection fs.name)
    ∨ build fs t = none
    ∨ ∃ vs, build fs t = some ⟨none, false, true, some vs⟩ := by
  unfold build
  dsimp only
  split
  · exact Or.inl rfl
  · split
    · exact Or.inr (Or.inl rfl)
    · split
      · exact Or.inr (Or.inr (Or.inl rfl))
      · split
        · exact Or.inr (Or.inr (Or.inr ⟨_, rfl⟩))
        · exact Or.inr (Or.inr (Or.inl rfl))

/-- On an unopenable file and a valid order, build exits with the
diagnostic naming the file (k_tree_example.cpp:140-142). -/
theorem build_unreadable (fs : FileState) (t : Nat) (ho : fs.openable = false)
    (h2 : 2 ≤ t) (hm : t ≤ 1000000) :
    build fs t = some (fileRejection fs.name) := by
  unfold build
  rw [if_neg (by omega)]
  have hread : read_entire_file fs = (0, []) := by
    simp [read_entire_file, ho]
  rw [hread]
  rfl

/-- C1: for every NUL-free input buffer, buffer_to_list returns exactly one
line per non-blank logical line, in file order, blank meaning a line of
terminator characters only; an input of only terminators yields zero lines,
a final line without trailing terminator is still captured, and the buffer
"a b\n\n\nc d\n" yields exactly the lines "a b" and "c d". -/
theorem buffer_to_list_one_per_nonblank_line :
    (∀ buffer : List Char, noNul buffer → buffer_to_list buffer = specLines buffer)
    ∧ buffer_to_list ("\n\r\r\n".data) = []
    ∧ buffer_to_list ("a b".data) = ["a b".data]
    ∧ buffer_to_list ("a b\n\n\nc d\n".data) = ["a b".data, "c d".data] :=
  ⟨buffer_to_list_eq_specLines, by decide, by decide, by decide⟩

/-- Witness for the line splitter refinement at a concrete buffer. -/
theorem buffer_to_list_one_per_nonblank_line_witness :
    buffer_to_list ("x\n\ny".data) = specLines ("x\n\ny".data) :=
  buffer_to_list_one_per_nonblank_line.1 ("x\n\ny".data) (by decide)

/-- C3 counterexample: on the buffer "a\nb" pass 1 counts one line while
pass 2 pushes two references, so the pass 1 count does not equal the number
of pushed references and the reserve of that count can be exceeded. -/
theorem pass_counts_differ_on_a_nl_b :
    countLines ("a\nb".data) = 1
    ∧ (buffer_to_list ("a\nb".data)).length = 2
    ∧ countLines ("a\nb".data) ≠ (buffer_to_list ("a\nb".data)).length := by
  decide

/-- C3 amended: pass 1 counts the maximal terminator runs of the buffer,
while pass 2 pushes one reference per non-blank line; the collection is only
reserved (a capacity hint), and the two numbers can differ, so reallocation
growth during population is possible. -/
theorem pass1_counts_terminator_runs :
    ∀ buffer : List Char, noNul buffer →
      countLines buffer = termRunCount buffer
      ∧ (buffer_to_list buffer).length = (specLines buffer).length := by
  intro buffer h
  exact ⟨countLines_eq_termRunCount buffer h,
    by rw [buffer_to_list_eq_specLines buffer h]⟩

/-- Witness for the pass 1 count characterisation at a concrete buffer. -/
theorem pass1_counts_terminator_runs_witness :
    countLines ("a\nb".data) = termRunCount ("a\nb".data)
    ∧ (buffer_to_list ("a\nb".data)).length = (specLines ("a\nb".data)).length :=
  pass1_counts_terminator_runs ("a\nb".data) (by decide)

/-- C6: the dimensionality sniff returns the number of whitespace-delimited
tokens of the first line; 3 on "1.0 2.0 3.0", 0 on a line of blanks, 0 on
the empty line. -/
theorem sniff_counts_whitespace_tokens :
    (∀ line : List Char, noNul line → sniff line = (specTokens line).length)
    ∧ sniff ("1.0 2.0 3.0".data) = 3
    ∧ sniff ("   ".data) = 0
    ∧ sniff ("".data) = 0 :=
  ⟨sniff_eq_specTokens, by decide, by decide, by decide⟩

/-- Witness for the sniff characterisation at a concrete line. -/
theorem sniff_counts_whitespace_tokens_witness :
    sniff ("a bb".data) = (specTokens ("a bb".data)).length :=
  sniff_counts_whitespace_tokens.1 ("a bb".data) (by decide)

/-- C4 counterexample: a single argument that is not the word unittest still
runs the unit tests (main checks only argc == 2, k_tree_example.cpp:252),
it does not print the usage text. -/
theorem single_strange_argument_runs_unittest :
    mainDispatch ["ktree", "banana"] = Action.runUnittest
    ∧ Action.runUnittest ≠ Action.runUsage := by
  decide

/-- C4 amended: four arguments with keyword build run a build and with
keyword unittest run the unit tests; a single argument runs the unit tests
whatever its value, since main only compares argc with 2 there; every other
argument count, and four arguments with an unrecognised keyword, print the
usage text, which returns the neutral zero status. -/
theorem cli_dispatch_cases :
    (∀ p a2 a3 a4 : String,
        mainDispatch [p, "build", a2, a3, a4]
          = Action.runBuild a2 (toSizeT (atoiModel a3.data)) a4)
    ∧ (∀ p a2 a3 a4 : String,
        mainDispatch [p, "unittest", a2, a3, a4] = Action.runUnittest)
    ∧ (∀ p a1 : String, mainDispatch [p, a1] = Action.runUnittest)
    ∧ (∀ p a1 a2 a3 a4 : String, a1 ≠ "build" → a1 ≠ "unittest" →
        mainDispatch [p, a1, a2, a3, a4] = Action.runUsage)
    ∧ (∀ argv : List String, argv.length ≠ 5 → argv.length ≠ 2 →
        mainDispatch argv = Action.runUsage)
    ∧ usageExit = 0 := by
  refine ⟨?_, ?_, ?_, ?_, ?_, rfl⟩
  · intro p a2 a3 a4
    simp [mainDispatch, List.getD]
  · intro p a2 a3 a4
    simp [mainDispatch, List.getD]
  · intro p a1
    simp [mainDispatch]
  · intro p a1 a2 a3 a4 hb hu
    simp [mainDispatch, List.getD, hb, hu]
  · intro argv h5 h2
    simp [mainDispatch, h5, h2]

/-- Witness for the dispatch case analysis at a concrete argument list. -/
theorem cli_dispatch_cases_witness :
    mainDispatch ["ktree", "load", "in.vec", "12", "out.tree"] = Action.runUsage :=
  cli_dispatch_cases.2.2.2.1 "ktree" "load" "in.vec" "12" "out.tree"
    (by decide) (by decide)

/-- C5: tree orders 1 and 1000001 are rejected with the order diagnostic
and a nonzero exit whatever the file system holds, i.e. before any file is
read, while orders 2 and 1000000 never produce that rejection: build
proceeds past the validation. -/
theorem tree_order_boundaries :
    ∀ fs : FileState,
      build fs 1 = some orderRejection
      ∧ build fs 1000001 = some orderRejection
      ∧ build fs 2 ≠ some orderRejection
      ∧ build fs 1000000 ≠ some orderRejection := by
  intro fs
  exact ⟨build_badOrder fs 1 (by omega), build_badOrder fs 1000001 (by omega),
    build_order_accepted fs 2 (by omega) (by omega),
    build_order_accepted fs 1000000 (by omega) (by omega)⟩

/-- Witness for the tree order boundaries at a concrete file state. -/
theorem tree_order_boundaries_witness :
    build exampleFile 1 = some orderRejection
    ∧ build exampleFile 1000001 = some orderRejection
    ∧ build exampleFile 2 ≠ some orderRejection
    ∧ build exampleFile 1000000 ≠ some orderRejection :=
  tree_order_boundaries exampleFile

/-- C2, at the failing input: a file that opens, reports three bytes and
then suffers a short read. read_entire_file hands back the empty buffer but
keeps the nonzero reported length, mismatching its own doc line
(k_tree_example.cpp:23) and slipping past the bytes check of build
(k_tree_example.cpp:141), which then walks into the undefined lines[0]
access instead of aborting with the diagnostic. The unopenable and
zero-size paths do return the documented empty buffer and zero length. -/
theorem short_read_keeps_reported_length :
    read_entire_file ⟨"vectors.txt", false, false, 0, false, []⟩ = (0, [])
    ∧ read_entire_file ⟨"vectors.txt", true, true, 0, true, []⟩ = (0, [])
    ∧ read_entire_file ⟨"vectors.txt", true, true, 3, false, "abc".data⟩ = (3, [])
    ∧ build ⟨"vectors.txt", true, true, 3, false, "abc".data⟩ 2 = none := by
  decide

/-- C7: on dimensionality 3 and the line "1.5 -2.25 0" the parsing loop
fills the slot with exactly 1.5, -2.25 and 0, left to right, whatever the
prior slot content was. -/
theorem parser_fills_slot_example :
    ∀ slot : List ℚ, slot.length = 3 →
      fillSlot slot ("1.5 -2.25 0".data) = [3/2, -9/4, 0] := by
  intro slot h
  obtain ⟨a, b, c, rfl⟩ := List.length_eq_three.mp h
  have hp : parseGo true ("1.5 -2.25 0".data) = [⟨15, 1⟩, ⟨-225, 2⟩, ⟨0, 0⟩] := by
    decide
  rw [fillSlot, parserWrites, parseLine, hp]
  simp [List.enum, List.enumFrom, Dec.toQ]
  norm_num

/-- Witness for the slot filling at the zero slot. -/
theorem parser_fills_slot_example_witness :
    fillSlot [0, 0, 0] ("1.5 -2.25 0".data) = [3/2, -9/4, 0] :=
  parser_fills_slot_example [0, 0, 0] (by decide)

/-- C8: a line of four tokens under a sniffed dimensionality of three makes
the parsing loop store a value at index 3, which is not below the declared
vector length: the loop has no bound check against the dimensionality. -/
theorem overlong_line_writes_past_end :
    sniff ("1 2 3".data) = 3
    ∧ (parseLine ("1 2 3 4".data)).length = 4
    ∧ ∃ w ∈ parserWrites ("1 2 3 4".data), sniff ("1 2 3".data) ≤ w.1 := by
  have hp : parseGo true ("1 2 3 4".data) = [⟨1, 0⟩, ⟨2, 0⟩, ⟨3, 0⟩, ⟨4, 0⟩] := by
    decide
  have hs : sniff ("1 2 3".data) = 3 := by decide
  refine ⟨hs, ?_, ?_⟩
  · rw [parseLine, hp]
    rfl
  · refine ⟨(3, Dec.toQ ⟨4, 0⟩), ?_, ?_⟩
    · rw [parserWrites, parseLine, hp]
      simp [List.enum, List.enumFrom]
    · rw [hs]

/-- C9: a defined build run either completes the whole sequence, with a zero
exit, the output written and the vector list inserted, or it terminates by
an early exit before the output file is opened, with a nonzero exit, no
output and nothing inserted; and on an unreadable input path it takes the
second shape, so the output file is never created or modified. -/
theorem build_all_or_nothing :
    (∀ (fs : FileState) (t : Nat) (r : BuildResult), build fs t = some r →
        (r.exitNonzero = false ∧ r.outputWritten = true ∧ r.diag = none
          ∧ r.inserted ≠ none)
        ∨ (r.exitNonzero = true ∧ r.outputWritten = false ∧ r.inserted = none))
    ∧ (∀ (fs : FileState) (t : Nat), fs.openable = false →
        ∃ r, build fs t = some r ∧ r.exitNonzero = true
          ∧ r.outputWritten = false) := by
  constructor
  · intro fs t r h
    rcases build_cases fs t with hc | hc | hc | ⟨vs, hc⟩ <;> rw [hc] at h
    · cases Option.some.inj h
      exact Or.inr ⟨rfl, rfl, rfl⟩
    · cases Option.some.inj h
      exact Or.inr ⟨rfl, rfl, rfl⟩
    · exact Option.noConfusion h
    · cases Option.some.inj h
      exact Or.inl ⟨rfl, rfl, rfl, by simp⟩
  · intro fs t ho
    by_cases hord : t < 2 ∨ t > 1000000
    · exact ⟨orderRejection, build_badOrder fs t hord, rfl, rfl⟩
    · push_neg at hord
      exact ⟨fileRejection fs.name,
        build_unreadable fs t ho (by omega) (by omega), rfl, rfl⟩

/-- Witness for the all-or-nothing shape at a concrete unreadable file. -/
theorem build_all_or_nothing_witness :
    ((fileRejection "missing.vec").exitNonzero = false
        ∧ (fileRejection "missing.vec").outputWritten = true
        ∧ (fileRejection "missing.vec").diag = none
        ∧ (fileRejection "missing.vec").inserted ≠ none)
    ∨ ((fileRejection "missing.vec").exitNonzero = true
        ∧ (fileRejection "missing.vec").outputWritten = false
        ∧ (fileRejection "missing.vec").inserted = none) :=
  build_all_or_nothing.1 unreadableFile 2 (fileRejection "missing.vec") (by decide)

/-- C10: a non-empty input of terminator characters only splits into an
empty line list, and build, which reads lines[0] with no emptiness check
(k_tree_example.cpp:154), has no defined value there: its safety needs the
precondition of at least one non-blank input line. -/
theorem blank_input_build_undefined :
    ∀ (buffer : List Char) (fs : FileState),
      buffer ≠ [] → (∀ c ∈ buffer, isTerm c = true) →
      fs.openable = true → fs.statOk = true → fs.readOk = true →
      fs.size = buffer.length → fs.content = buffer →
      buffer_to_list buffer = [] ∧ build fs 2 = none := by
  intro buffer fs hne hterm ho hs hr hsz hc
  have hempty : buffer_to_list buffer = [] :=
    runsGo_of_all_delim isTerm (by decide) buffer true hterm
  refine ⟨hempty, ?_⟩
  have hlen : buffer.length ≠ 0 := fun h0 => hne (List.length_eq_zero.mp h0)
  have hread : read_entire_file fs = (buffer.length, buffer) := by
    simp [read_entire_file, ho, hs, hr, hsz, hc, hlen]
  unfold build
  rw [if_neg (by omega), hread]
  dsimp only
  rw [if_neg hlen, hempty]
  rfl

/-- Witness for the blank-input collapse at a concrete two-byte file. -/
theorem blank_input_build_undefined_witness :
    buffer_to_list ("\n\n".data) = []
    ∧ build ⟨"blank.vec", true, true, 2, true, "\n\n".data⟩ 2 = none :=
  blank_input_build_undefined ("\n\n".data)
    ⟨"blank.vec", true, true, 2, true, "\n\n".data⟩
    (by decide) (by decide) rfl rfl rfl (by decide) rfl

end KTree
